import Mathlib

/-!
Verification development for the Tutor vocabulary application (`src/app.py`).

The file shallowly embeds the core of the application:
* the extraction validator: the post-processing of the language model's raw
  text in `translate_word` (fence stripping, `json` tag stripping, trimming,
  `json.loads`),
* the persistence step of the `/api/search` handler,
* the owner-scoped word store operations `get_words`, `set_difficulty`,
  `delete_word`,
* the analytics of `get_stats` (total, by-type and by-difficulty histograms,
  the 30-day daily series, the consecutive-day streak, milestones).

Modelling conventions:
* Timestamps (`created_at`, `NOW()`, `datetime.utcnow()`) are integers counting
  seconds; `DATE(ts)` and `date.today()` are floor division by 86400.
* A parsed JSON object (`json.loads` result) is an association list
  `List (String × JValue)`; dictionary lookup is `jget`, which takes the last
  occurrence of a key, as a Python dict built from JSON does.  The embedded
  JSON parser covers flat objects whose values are escape-free strings or
  `null`, the shape of every payload the application's prompt requests; inputs
  outside that fragment are rejected, as is a non-object top level (the Python
  code would instead crash later when subscripting a non-dict result).
* A database error response (HTTP 4xx/5xx, raised exception) is
  `Except.error`; a committed response is `Except.ok` carrying the new store.
-/

/-- One row of the `words` table, with the columns of `init_db`. -/
structure Entry where
  id : Nat
  user_id : Nat
  english : String
  german : String
  word_type : Option String
  gender_article : Option String
  gender_label : Option String
  plural : Option String
  verb_forms : Option String
  example_sentence : String
  sentence_translation : Option String
  difficulty : Option String
  ipa : Option String
  notes : Option String
  created_at : Int
  deriving DecidableEq

/-- A JSON value in the fragment produced by the application's prompt:
flat strings and `null`. -/
inductive JValue where
  | str : String → JValue
  | null : JValue
  deriving DecidableEq

/-- One milestone dictionary of `get_stats`. -/
structure Milestone where
  target : Nat
  label : String
  icon : String
  reached : Bool
  deriving DecidableEq

/-- The JSON body returned by `get_stats`. -/
structure Stats where
  total : Nat
  by_type : List (String × Nat)
  by_difficulty : List (String × Nat)
  daily : List (Int × Nat)
  streak : Nat
  milestones : List Milestone
  deriving DecidableEq

/-! ### Characters used by the text pipeline -/

/-- The backquote character of a code fence. -/
def btickC : Char := Char.ofNat 96

/-- The double-quote character delimiting JSON strings. -/
def quoteC : Char := Char.ofNat 34

/-- The backslash character, which starts a JSON escape. -/
def bslashC : Char := Char.ofNat 92

/-- Opening curly bracket. -/
def lbraceC : Char := Char.ofNat 123

/-- Closing curly bracket. -/
def rbraceC : Char := Char.ofNat 125

/-- Newline. -/
def nlC : Char := Char.ofNat 10

/-- The three-backquote fence delimiter, as a character list. -/
def fenceL : List Char := [btickC, btickC, btickC]

/-- The characters of the `json` language tag. -/
def jsonTagL : List Char := ['j', 's', 'o', 'n']

/-- The characters of the JSON literal `null`. -/
def nullL : List Char := ['n', 'u', 'l', 'l']

/-! ### Python string primitives -/

/-- Python `str.strip` / JSON inter-token whitespace removal, left side:
drop leading whitespace characters. -/
def skipWs (l : List Char) : List Char := l.dropWhile Char.isWhitespace

/-- Python `str.strip`: drop whitespace from both ends. -/
def trimCore (l : List Char) : List Char :=
  ((skipWs l).reverse.dropWhile Char.isWhitespace).reverse

/-- Helper for `splitFence`: prepend a character to the first piece of a
split result. -/
def prependFirst (c : Char) : List (List Char) → List (List Char)
  | [] => [[c]]
  | p :: ps => (c :: p) :: ps

/-- Python `text.split("\x60\x60\x60")`: split at each non-overlapping,
leftmost-first occurrence of the three-backquote fence. -/
def splitFence : List Char → List (List Char)
  | [] => [[]]
  | c :: cs =>
    if c = btickC ∧ cs.take 2 = [btickC, btickC] then
      match cs with
      | _ :: _ :: cs2 => [] :: splitFence cs2
      | _ => [[]]
    else
      prependFirst c (splitFence cs)

/-! ### The embedded JSON parser (`json.loads`) -/

/-- Read the body of a JSON string up to its closing quote.  Escape
sequences (backslash) are outside the supported fragment and rejected. -/
def parseStringBody : List Char → Option (List Char × List Char)
  | [] => none
  | c :: cs =>
    if c = quoteC then some ([], cs)
    else if c = bslashC then none
    else
      match parseStringBody cs with
      | some (acc, rest) => some (c :: acc, rest)
      | none => none

/-- Parse one JSON value of the supported fragment: a string or `null`. -/
def parseValue (l : List Char) : Option (JValue × List Char) :=
  match l with
  | [] => none
  | c :: cs =>
    if c = quoteC then
      match parseStringBody cs with
      | some (body, rest) => some (JValue.str (String.mk body), rest)
      | none => none
    else if l.take 4 = nullL then some (JValue.null, l.drop 4)
    else none

/-- Parse the members of a JSON object after the opening bracket, consuming
the closing bracket.  `fuel` bounds the number of members; callers pass the
input length, an upper bound. -/
def parseMembers : Nat → List Char → Option (List (String × JValue) × List Char)
  | 0, _ => none
  | fuel + 1, cs =>
    match skipWs cs with
    | [] => none
    | c :: cs1 =>
      if c = quoteC then
        match parseStringBody cs1 with
        | none => none
        | some (key, cs2) =>
          match skipWs cs2 with
          | [] => none
          | c2 :: cs3 =>
            if c2 = ':' then
              match parseValue (skipWs cs3) with
              | none => none
              | some (v, cs4) =>
                match skipWs cs4 with
                | [] => none
                | c3 :: cs5 =>
                  if c3 = ',' then
                    match parseMembers fuel cs5 with
                    | some (rest, cs6) => some ((String.mk key, v) :: rest, cs6)
                    | none => none
                  else if c3 = rbraceC then some ([(String.mk key, v)], cs5)
                  else none
            else none
      else none

/-- `json.loads` on the supported fragment: a single top-level object with
nothing but whitespace around it. -/
def jsonLoadsCore (cs0 : List Char) : Option (List (String × JValue)) :=
  match skipWs cs0 with
  | [] => none
  | c :: cs1 =>
    if c = lbraceC then
      match skipWs cs1 with
      | [] => none
      | c2 :: cs2 =>
        if c2 = rbraceC then
          if skipWs cs2 = [] then some [] else none
        else
          match parseMembers (cs1.length + 1) cs1 with
          | some (fields, rest) => if skipWs rest = [] then some fields else none
          | none => none
    else none

/-! ### The extraction validator (`translate_word`, lines 140-146) -/

/-- The text post-processing of `translate_word`: strip the raw text; if it
contains a fence delimiter take the segment after the first fence, strip a
leading `json` tag, and strip again. -/
def extractCore (text : List Char) : List Char :=
  let t := trimCore text
  let parts := splitFence t
  if 2 ≤ parts.length then
    let seg := parts.getD 1 []
    let seg := if seg.take 4 = jsonTagL then seg.drop 4 else seg
    trimCore seg
  else t

/-- `translate_word`'s validation step: fence extraction followed by
`json.loads`.  `none` is the raised-exception case (`MalformedOutput`),
which the `/api/search` handler reports as "Translation failed". -/
def translate_word (text : String) : Option (List (String × JValue)) :=
  jsonLoadsCore (extractCore text.toList)

/-- Python dict lookup on a parsed JSON object: the last occurrence of a
key wins, as in a dict built by `json.loads`. -/
def jget (r : List (String × JValue)) (k : String) : Option JValue :=
  (r.reverse.find? (fun kv => kv.1 == k)).map (fun kv => kv.2)

/-- Python `result.get(k)` coerced to an optional TEXT column value: a
string value is kept, an absent key or JSON `null` becomes NULL. -/
def getStrOpt (r : List (String × JValue)) (k : String) : Option String :=
  match jget r k with
  | some (JValue.str s) => some s
  | _ => none

/-! ### The `/api/search` persistence step (lines 314-344) -/

/-- The INSERT of the `search` handler.  The three required columns are read
with `result[...]`, so an absent key raises `KeyError` before the INSERT
runs, and a JSON `null` there would violate the columns' NOT NULL
constraint at the INSERT; both surface as an error with nothing persisted,
modelled as `Except.error "KeyError"`.  Optional columns use `.get`. -/
def searchPersist (uid : Nat) (result : List (String × JValue)) (now : Int)
    (nextId : Nat) (store : List Entry) : Except String (List Entry) :=
  match jget result "english", jget result "german",
      jget result "example_sentence" with
  | some (JValue.str e), some (JValue.str g), some (JValue.str ex) =>
    Except.ok (store ++ [{
      id := nextId
      user_id := uid
      english := e
      german := g
      word_type := getStrOpt result "word_type"
      gender_article := getStrOpt result "gender_article"
      gender_label := getStrOpt result "gender_label"
      plural := getStrOpt result "plural"
      verb_forms := getStrOpt result "verb_forms"
      example_sentence := ex
      sentence_translation := getStrOpt result "sentence_translation"
      difficulty := some "new"
      ipa := getStrOpt result "ipa"
      notes := getStrOpt result "notes"
      created_at := now }])
  | _, _, _ => Except.error "KeyError"

/-- The `/api/search` handler after the model call: validate the model text,
reporting "Translation failed" when `translate_word` raises, then persist
the record. -/
def search (uid : Nat) (modelText : String) (now : Int) (nextId : Nat)
    (store : List Entry) : Except String (List Entry) :=
  match translate_word modelText with
  | none => Except.error "Translation failed"
  | some result => searchPersist uid result now nextId store

/-! ### Sorting helpers (the SQL ORDER BY clauses) -/

/-- Insert into a list kept in descending `key` order. -/
def insertDescBy {α : Type} (key : α → Int) (x : α) : List α → List α
  | [] => [x]
  | y :: ys => if key y ≤ key x then x :: y :: ys else y :: insertDescBy key x ys

/-- Insertion sort, descending by `key` (ORDER BY ... DESC). -/
def sortDescBy {α : Type} (key : α → Int) : List α → List α
  | [] => []
  | x :: xs => insertDescBy key x (sortDescBy key xs)

/-- Insert into a list kept in ascending `key` order. -/
def insertAscBy {α : Type} (key : α → Int) (x : α) : List α → List α
  | [] => [x]
  | y :: ys => if key x ≤ key y then x :: y :: ys else y :: insertAscBy key x ys

/-- Insertion sort, ascending by `key` (ORDER BY ... ASC). -/
def sortAscBy {α : Type} (key : α → Int) : List α → List α
  | [] => []
  | x :: xs => insertAscBy key x (sortAscBy key xs)

/-! ### The owner-scoped store operations -/

/-- `/api/words` (`get_words`): the caller's rows, newest first. -/
def get_words (uid : Nat) (store : List Entry) : List Entry :=
  sortDescBy (fun e => e.created_at)
    (store.filter (fun e => e.user_id == uid))

/-- `/api/words/<id>/difficulty` (`set_difficulty`): a missing body key
defaults to "new"; a value outside the enumeration is a 400 error; the
UPDATE touches exactly the rows matching both the id and the caller, and
the handler answers ok whether or not any row matched. -/
def set_difficulty (uid : Nat) (word_id : Nat) (body : Option String)
    (store : List Entry) : Except String (List Entry) :=
  let difficulty := body.getD "new"
  if difficulty = "new" ∨ difficulty = "hard" ∨ difficulty = "medium" ∨
      difficulty = "easy" then
    Except.ok (store.map (fun e =>
      if e.id = word_id ∧ e.user_id = uid then
        { e with difficulty := some difficulty }
      else e))
  else Except.error "Invalid difficulty"

/-- `DELETE /api/words/<id>` (`delete_word`): remove the rows matching both
the id and the caller; the handler answers ok unconditionally. -/
def delete_word (uid : Nat) (word_id : Nat) (store : List Entry) :
    Except String (List Entry) :=
  Except.ok (store.filter (fun e => !(e.id == word_id && e.user_id == uid)))

/-! ### The analytics of `get_stats` (lines 389-460) -/

/-- `DATE(ts)` / `date.today()`: the calendar day of a timestamp, as days
since the epoch (floor division, matching SQL date truncation). -/
def dateOf (ts : Int) : Int := ts.fdiv 86400

/-- A SQL `GROUP BY` over a key list: each distinct key paired with its
multiplicity. -/
def groupCounts {α : Type} [DecidableEq α] [BEq α] (l : List α) : List (α × Nat) :=
  l.dedup.map (fun k => (k, l.count k))

/-- The by-type histogram: `COALESCE(word_type, 'other')`, grouped, ordered
by count descending. -/
def by_typeOf (mine : List Entry) : List (String × Nat) :=
  sortDescBy (fun p => (p.2 : Int))
    (groupCounts (mine.map (fun e => e.word_type.getD "other")))

/-- The by-difficulty histogram: `COALESCE(difficulty, 'new')`, grouped. -/
def by_difficultyOf (mine : List Entry) : List (String × Nat) :=
  groupCounts (mine.map (fun e => e.difficulty.getD "new"))

/-- Reading a count out of a grouped histogram: a key that is absent from
the mapping counts as zero. -/
def lookupCount (m : List (String × Nat)) (k : String) : Nat :=
  ((m.find? (fun p => p.1 == k)).map (fun p => p.2)).getD 0

/-- The last-30-days daily series: the owner's entries with
`created_at > NOW() - INTERVAL '30 days'`, grouped by calendar day,
ordered by day ascending. -/
def dailyOf (uid : Nat) (now : Int) (store : List Entry) : List (Int × Nat) :=
  let recent := store.filter
    (fun e => e.user_id == uid && decide (now - 30 * 86400 < e.created_at))
  let days := recent.map (fun e => dateOf e.created_at)
  sortAscBy (fun p => p.1) (days.dedup.map (fun d => (d, days.count d)))

/-- The streak loop of `get_stats`: walk the distinct days (most recent
first); at index `i` expect `today - i`; once, at index 0 only, a most
recent day of `today - 1` counts and shifts `today` back one day; the
first unexpected day stops the walk. -/
def streakLoop : Int → Nat → List Int → Nat
  | _, _, [] => 0
  | today, i, d :: rest =>
    if d = today - (i : Int) then 1 + streakLoop today (i + 1) rest
    else if i = 0 ∧ d = today - 1 then 1 + streakLoop (today - 1) 1 rest
    else 0

/-- `SELECT DISTINCT DATE(created_at) ... ORDER BY day DESC` over the
owner's rows. -/
def distinctDaysDesc (mine : List Entry) : List Int :=
  sortDescBy (fun d => d) ((mine.map (fun e => dateOf e.created_at)).dedup)

/-- The milestone configuration of `get_stats`, with `reached` computed
from the total. -/
def milestones_for (total : Nat) : List Milestone :=
  [(1, "First Word", "seed"), (10, "Getting Started", "sprout"),
   (25, "Quarter Century", "leaf"), (50, "Half Century", "tree"),
   (100, "Century", "star"), (250, "Enthusiast", "fire"),
   (500, "Scholar", "book"), (1000, "Master", "crown")].map
    (fun t => { target := t.1, label := t.2.1, icon := t.2.2,
                reached := decide (t.1 ≤ total) })

/-- `/api/stats` (`get_stats`): assemble the report for one owner.  `now`
stands for both the database clock `NOW()` and the application clock
`date.today()`, which the code reads in the same request. -/
def get_stats (uid : Nat) (now : Int) (store : List Entry) : Stats :=
  let mine := store.filter (fun e => e.user_id == uid)
  let total := mine.length
  { total := total
    by_type := by_typeOf mine
    by_difficulty := by_difficultyOf mine
    daily := dailyOf uid now store
    streak := streakLoop (dateOf now) 0 (distinctDaysDesc mine)
    milestones := milestones_for total }

/-! ### JSON rendering: the well-formed payload texts of the claims -/

/-- Characters allowed inside the keys and string values of a rendered
payload: no quote, no backslash (the parser's fragment has no escapes), no
backquote (so a payload never contains a fence). -/
def goodChar (c : Char) : Bool :=
  !(c == quoteC) && !(c == bslashC) && !(c == btickC)

/-- A string fit to appear as a JSON key or string value. -/
def goodStrB (s : String) : Bool := s.toList.all goodChar

/-- A value fit to appear in a rendered payload. -/
def goodValB : JValue → Bool
  | JValue.str s => goodStrB s
  | JValue.null => true

/-- A field list fit to be rendered. -/
def goodFieldsB (fields : List (String × JValue)) : Bool :=
  fields.all (fun kv => goodStrB kv.1 && goodValB kv.2)

/-- Render one JSON value. -/
def renderValL : JValue → List Char
  | JValue.str s => quoteC :: s.toList ++ [quoteC]
  | JValue.null => nullL

/-- Render one `"key": value` member. -/
def renderMemberL (kv : String × JValue) : List Char :=
  quoteC :: kv.1.toList ++ [quoteC, ':', ' '] ++ renderValL kv.2

/-- Render the comma-separated members of an object. -/
def renderMembersL : List (String × JValue) → List Char
  | [] => []
  | [kv] => renderMemberL kv
  | kv :: rest => renderMemberL kv ++ ',' :: ' ' :: renderMembersL rest

/-- Render a flat JSON object. -/
def renderJsonL (fields : List (String × JValue)) : List Char :=
  lbraceC :: renderMembersL fields ++ [rbraceC]

/-- A payload wrapped in a fenced block carrying the `json` language tag. -/
def fencedTagged (fields : List (String × JValue)) : List Char :=
  fenceL ++ jsonTagL ++ nlC :: renderJsonL fields ++ nlC :: fenceL

/-- A payload wrapped in a fenced block with no language tag. -/
def fencedPlain (fields : List (String × JValue)) : List Char :=
  fenceL ++ nlC :: renderJsonL fields ++ nlC :: fenceL

/-- A minimal `words` row for concrete scenarios: owner `u`, creation
timestamp `ts`, all optional columns NULL, difficulty "new". -/
def mkE (u : Nat) (ts : Int) : Entry :=
  { id := 0, user_id := u, english := "", german := "", word_type := none,
    gender_article := none, gender_label := none, plural := none,
    verb_forms := none, example_sentence := "", sentence_translation := none,
    difficulty := some "new", ipa := none, notes := none, created_at := ts }

/-- The spec's example noun payload, carrying a `verb_forms` value `vf`
that the noun/verb gating would have to null out. -/
def nounVerbFields (vf : String) : List (String × JValue) :=
  [("english", JValue.str "flower"), ("german", JValue.str "Blume"),
   ("word_type", JValue.str "noun"), ("gender_article", JValue.str "die"),
   ("plural", JValue.str "Blumen"), ("verb_forms", JValue.str vf)]

/-- A payload with all required fields but a `word_type` outside the
enumeration. -/
def bananaFields : List (String × JValue) :=
  [("english", JValue.str "x"), ("german", JValue.str "y"),
   ("example_sentence", JValue.str "z"), ("word_type", JValue.str "banana")]

/-! ### Whitespace and trimming lemmas -/

theorem skipWs_nil : skipWs [] = [] := rfl

theorem skipWs_cons_of_not_ws {c : Char} (l : List Char)
    (h : ¬ c.isWhitespace) : skipWs (c :: l) = c :: l := by
  simp [skipWs, List.dropWhile_cons, h]

theorem skipWs_cons_of_ws {c : Char} (l : List Char)
    (h : c.isWhitespace) : skipWs (c :: l) = skipWs l := by
  simp [skipWs, List.dropWhile_cons, h]

theorem trimCore_eq_self (c d : Char) (m : List Char)
    (hc : ¬ c.isWhitespace) (hd : ¬ d.isWhitespace) :
    trimCore (c :: (m ++ [d])) = c :: (m ++ [d]) := by
  have h1 : skipWs (c :: (m ++ [d])) = c :: (m ++ [d]) :=
    skipWs_cons_of_not_ws _ hc
  have h2 : (c :: (m ++ [d])).reverse = d :: (m.reverse ++ [c]) := by
    simp
  unfold trimCore
  rw [h1, h2, List.dropWhile_cons, if_neg (by simpa using hd)]
  simp

/-! ### Fence-splitting lemmas -/

theorem splitFence_nil : splitFence [] = [[]] := by
  rw [splitFence]

theorem splitFence_cons_of_ne {c : Char} (cs : List Char) (h : c ≠ btickC) :
    splitFence (c :: cs) = prependFirst c (splitFence cs) := by
  rw [splitFence.eq_def]
  show (if c = btickC ∧ cs.take 2 = [btickC, btickC] then
      match cs with
      | _ :: _ :: cs2 => [] :: splitFence cs2
      | _ => [[]]
    else prependFirst c (splitFence cs)) = prependFirst c (splitFence cs)
  rw [if_neg (fun hcontra => h hcontra.1)]

theorem splitFence_fence (r : List Char) :
    splitFence (fenceL ++ r) = [] :: splitFence r := by
  rw [splitFence.eq_def]
  show (if btickC = btickC ∧
      (btickC :: btickC :: r).take 2 = [btickC, btickC] then
      match btickC :: btickC :: r with
      | _ :: _ :: cs2 => [] :: splitFence cs2
      | _ => [[]]
    else prependFirst btickC (splitFence (btickC :: btickC :: r)))
    = [] :: splitFence r
  rw [if_pos ⟨rfl, by simp [List.take]⟩]

theorem splitFence_of_no_btick (l : List Char) (h : ∀ c ∈ l, c ≠ btickC) :
    splitFence l = [l] := by
  induction l with
  | nil => exact splitFence_nil
  | cons c cs ih =>
    rw [splitFence_cons_of_ne cs (h c (by simp)),
      ih (fun x hx => h x (by simp [hx]))]
    rfl

theorem splitFence_mid (m r : List Char) (h : ∀ c ∈ m, c ≠ btickC) :
    splitFence (m ++ fenceL ++ r) = m :: splitFence r := by
  induction m with
  | nil => simpa using splitFence_fence r
  | cons c cs ih =>
    have : (c :: cs) ++ fenceL ++ r = c :: (cs ++ fenceL ++ r) := by simp
    rw [this, splitFence_cons_of_ne _ (h c (by simp)),
      ih (fun x hx => h x (by simp [hx]))]
    rfl

/-! ### Characters of rendered payloads -/

theorem goodChar_spec {c : Char} (h : goodChar c = true) :
    c ≠ quoteC ∧ c ≠ bslashC ∧ c ≠ btickC := by
  simp only [goodChar, Bool.and_eq_true, Bool.not_eq_true',
    beq_eq_false_iff_ne, ne_eq] at h
  exact ⟨h.1.1, h.1.2, h.2⟩

theorem goodStrB_spec {s : String} (h : goodStrB s = true) :
    ∀ c ∈ s.toList, goodChar c = true := by
  simpa [goodStrB, List.all_eq_true] using h

theorem no_btick_renderValL {v : JValue} (h : goodValB v = true) :
    ∀ c ∈ renderValL v, c ≠ btickC := by
  cases v with
  | str s =>
    rw [renderValL]
    simp only [List.cons_append, List.forall_mem_cons, List.forall_mem_append]
    exact ⟨by decide, fun c hc => (goodChar_spec (goodStrB_spec h c hc)).2.2,
      by decide⟩
  | null => rw [renderValL]; decide

theorem no_btick_renderMemberL {kv : String × JValue}
    (hk : goodStrB kv.1 = true) (hv : goodValB kv.2 = true) :
    ∀ c ∈ renderMemberL kv, c ≠ btickC := by
  rw [renderMemberL]
  simp only [List.cons_append, List.forall_mem_cons, List.forall_mem_append]
  exact ⟨by decide,
    ⟨fun c hc => (goodChar_spec (goodStrB_spec hk c hc)).2.2, by decide⟩,
    no_btick_renderValL hv⟩

theorem goodFieldsB_cons {kv : String × JValue}
    {rest : List (String × JValue)} (h : goodFieldsB (kv :: rest) = true) :
    (goodStrB kv.1 = true ∧ goodValB kv.2 = true) ∧ goodFieldsB rest = true := by
  simpa [goodFieldsB, List.all_cons, Bool.and_eq_true] using h

theorem no_btick_renderMembersL {fields : List (String × JValue)}
    (h : goodFieldsB fields = true) : ∀ c ∈ renderMembersL fields, c ≠ btickC := by
  induction fields with
  | nil => rw [renderMembersL]; decide
  | cons kv rest ih =>
    obtain ⟨⟨hk, hv⟩, hrest⟩ := goodFieldsB_cons h
    cases rest with
    | nil => exact no_btick_renderMemberL hk hv
    | cons kv2 rest2 =>
      show ∀ c ∈ renderMemberL kv ++ ',' :: ' ' :: renderMembersL (kv2 :: rest2),
        c ≠ btickC
      simp only [List.forall_mem_append, List.forall_mem_cons]
      exact ⟨no_btick_renderMemberL hk hv, by decide, by decide, ih hrest⟩

theorem no_btick_renderJsonL {fields : List (String × JValue)}
    (h : goodFieldsB fields = true) : ∀ c ∈ renderJsonL fields, c ≠ btickC := by
  rw [renderJsonL]
  simp only [List.cons_append, List.forall_mem_cons, List.forall_mem_append]
  exact ⟨by decide, no_btick_renderMembersL h, by decide⟩

/-! ### Parser roundtrip lemmas -/

theorem mk_toList (s : String) : String.mk s.toList = s := rfl

theorem toList_mk (l : List Char) : (String.mk l).toList = l := rfl

theorem skipWs_quote (l : List Char) : skipWs (quoteC :: l) = quoteC :: l :=
  skipWs_cons_of_not_ws l (by decide)

theorem skipWs_colon (l : List Char) : skipWs (':' :: l) = ':' :: l :=
  skipWs_cons_of_not_ws l (by decide)

theorem skipWs_comma (l : List Char) : skipWs (',' :: l) = ',' :: l :=
  skipWs_cons_of_not_ws l (by decide)

theorem skipWs_rbrace (l : List Char) : skipWs (rbraceC :: l) = rbraceC :: l :=
  skipWs_cons_of_not_ws l (by decide)

theorem skipWs_lbrace (l : List Char) : skipWs (lbraceC :: l) = lbraceC :: l :=
  skipWs_cons_of_not_ws l (by decide)

theorem skipWs_space (l : List Char) : skipWs (' ' :: l) = skipWs l :=
  skipWs_cons_of_ws l (by decide)

theorem skipWs_nl (l : List Char) : skipWs (nlC :: l) = skipWs l :=
  skipWs_cons_of_ws l (by decide)

theorem rbrace_ne_comma : rbraceC ≠ ',' := by decide

theorem quote_ne_rbrace : quoteC ≠ rbraceC := by decide

theorem parseStringBody_roundtrip (s : List Char) (r : List Char)
    (h : ∀ c ∈ s, goodChar c = true) :
    parseStringBody (s ++ quoteC :: r) = some (s, r) := by
  induction s with
  | nil => simp [parseStringBody]
  | cons c cs ih =>
    obtain ⟨h1, h2, _⟩ := goodChar_spec (h c (by simp))
    rw [List.cons_append, parseStringBody, if_neg h1, if_neg h2,
      ih (fun x hx => h x (by simp [hx]))]

theorem parseValue_roundtrip (v : JValue) (r : List Char)
    (h : goodValB v = true) :
    parseValue (renderValL v ++ r) = some (v, r) := by
  cases v with
  | str s =>
    have hsb := parseStringBody_roundtrip s.toList (r) (goodStrB_spec h)
    rw [renderValL, show (quoteC :: s.toList ++ [quoteC]) ++ r
      = quoteC :: (s.toList ++ quoteC :: r) by simp]
    simp only [parseValue, if_pos rfl, hsb, mk_toList]
    simp
  | null =>
    rw [renderValL, nullL]
    show parseValue ('n' :: 'u' :: 'l' :: 'l' :: r) = some (JValue.null, r)
    simp only [parseValue, List.take, List.drop, nullL, if_neg (by decide : ¬ ('n' = quoteC))]
    simp

theorem skipWs_renderValL (v : JValue) (r : List Char) :
    skipWs (renderValL v ++ r) = renderValL v ++ r := by
  cases v with
  | str s => exact skipWs_cons_of_not_ws _ (by decide)
  | null => exact skipWs_cons_of_not_ws _ (by decide)

theorem parseMembers_succ (fuel : Nat) (cs : List Char) :
    parseMembers (fuel + 1) cs =
      match skipWs cs with
      | [] => none
      | c :: cs1 =>
        if c = quoteC then
          match parseStringBody cs1 with
          | none => none
          | some (key, cs2) =>
            match skipWs cs2 with
            | [] => none
            | c2 :: cs3 =>
              if c2 = ':' then
                match parseValue (skipWs cs3) with
                | none => none
                | some (v, cs4) =>
                  match skipWs cs4 with
                  | [] => none
                  | c3 :: cs5 =>
                    if c3 = ',' then
                      match parseMembers fuel cs5 with
                      | some (rest, cs6) => some ((String.mk key, v) :: rest, cs6)
                      | none => none
                    else if c3 = rbraceC then some ([(String.mk key, v)], cs5)
                    else none
              else none
        else none := rfl

theorem parseMembers_skip_ws {c : Char} (fuel : Nat) (l : List Char)
    (h : c.isWhitespace) :
    parseMembers (fuel + 1) (c :: l) = parseMembers (fuel + 1) l := by
  rw [parseMembers_succ, parseMembers_succ, skipWs_cons_of_ws l h]

theorem parseMembers_roundtrip (fields : List (String × JValue)) :
    ∀ (fuel : Nat) (r : List Char), fields ≠ [] → goodFieldsB fields = true →
    fields.length ≤ fuel →
    parseMembers fuel (renderMembersL fields ++ rbraceC :: r) =
      some (fields, r) := by
  induction fields with
  | nil => intro _ _ hne; exact absurd rfl hne
  | cons kv rest ih =>
    intro fuel r _ hgood hfuel
    obtain ⟨⟨hk, hv⟩, hrest⟩ := goodFieldsB_cons hgood
    obtain ⟨f, rfl⟩ : ∃ f, fuel = f + 1 := by
      cases fuel with
      | zero => simp at hfuel
      | succ f => exact ⟨f, rfl⟩
    cases rest with
    | nil =>
      have hkey := parseStringBody_roundtrip kv.1.toList
        (':' :: ' ' :: (renderValL kv.2 ++ rbraceC :: r)) (goodStrB_spec hk)
      have hval := parseValue_roundtrip kv.2 (rbraceC :: r) hv
      rw [show renderMembersL [kv] ++ rbraceC :: r
        = quoteC :: (kv.1.toList ++
            quoteC :: ':' :: ' ' :: (renderValL kv.2 ++ rbraceC :: r))
        by simp [renderMembersL, renderMemberL]]
      rw [parseMembers_succ]
      simp only [skipWs_quote, if_pos rfl, hkey, skipWs_colon, skipWs_space,
        skipWs_renderValL, hval, skipWs_rbrace, if_neg rbrace_ne_comma,
        mk_toList]
      simp
    | cons kv2 rest2 =>
      obtain ⟨f2, rfl⟩ : ∃ f2, f = f2 + 1 := by
        simp only [List.length_cons] at hfuel
        cases f with
        | zero => omega
        | succ f2 => exact ⟨f2, rfl⟩
      have hkey := parseStringBody_roundtrip kv.1.toList
        (':' :: ' ' :: (renderValL kv.2 ++ ',' :: ' ' ::
          (renderMembersL (kv2 :: rest2) ++ rbraceC :: r))) (goodStrB_spec hk)
      have hval := parseValue_roundtrip kv.2
        (',' :: ' ' :: (renderMembersL (kv2 :: rest2) ++ rbraceC :: r)) hv
      have hinner : parseMembers (f2 + 1)
          (' ' :: (renderMembersL (kv2 :: rest2) ++ rbraceC :: r)) =
          some (kv2 :: rest2, r) := by
        rw [parseMembers_skip_ws f2 _ (by decide)]
        exact ih (f2 + 1) r (by simp) hrest
          (by simp only [List.length_cons] at hfuel ⊢; omega)
      rw [show renderMembersL (kv :: kv2 :: rest2) ++ rbraceC :: r
        = quoteC :: (kv.1.toList ++
            quoteC :: ':' :: ' ' :: (renderValL kv.2 ++ ',' :: ' ' ::
              (renderMembersL (kv2 :: rest2) ++ rbraceC :: r)))
        by simp [renderMembersL, renderMemberL]]
      have hstep := parseMembers_succ (f2 + 1)
        (quoteC :: (kv.1.toList ++
          quoteC :: ':' :: ' ' :: (renderValL kv.2 ++ ',' :: ' ' ::
            (renderMembersL (kv2 :: rest2) ++ rbraceC :: r))))
      rw [hstep]
      simp only [skipWs_quote, if_pos rfl, hkey, skipWs_colon, skipWs_space,
        skipWs_renderValL, hval, skipWs_comma, hinner, mk_toList]
      simp

theorem renderMembersL_shape (fields : List (String × JValue))
    (h : fields ≠ []) : ∃ t, renderMembersL fields = quoteC :: t := by
  cases fields with
  | nil => exact absurd rfl h
  | cons kv rest =>
    cases rest with
    | nil => exact ⟨_, rfl⟩
    | cons kv2 rest2 =>
      exact ⟨kv.1.toList ++ [quoteC, ':', ' '] ++ renderValL kv.2 ++
        ',' :: ' ' :: renderMembersL (kv2 :: rest2),
        by simp [renderMembersL, renderMemberL]⟩

theorem length_le_renderMembersL (fields : List (String × JValue)) :
    fields.length ≤ (renderMembersL fields).length := by
  induction fields with
  | nil => simp
  | cons kv rest ih =>
    cases rest with
    | nil => simp [renderMembersL, renderMemberL]
    | cons kv2 rest2 =>
      rw [show renderMembersL (kv :: kv2 :: rest2)
        = renderMemberL kv ++ ',' :: ' ' :: renderMembersL (kv2 :: rest2)
        from rfl]
      simp only [List.length_cons, List.length_append] at ih ⊢
      omega

theorem jsonLoadsCore_roundtrip (fields : List (String × JValue))
    (h : goodFieldsB fields = true) :
    jsonLoadsCore (renderJsonL fields) = some fields := by
  cases fields with
  | nil => decide
  | cons kv rest =>
    obtain ⟨t, ht⟩ := renderMembersL_shape (kv :: rest) (by simp)
    have hpm : parseMembers ((renderMembersL (kv :: rest) ++ [rbraceC]).length + 1)
        (renderMembersL (kv :: rest) ++ [rbraceC]) = some (kv :: rest, []) := by
      rw [show renderMembersL (kv :: rest) ++ [rbraceC]
        = renderMembersL (kv :: rest) ++ rbraceC :: [] from rfl]
      refine parseMembers_roundtrip (kv :: rest) _ [] (by simp) h ?_
      have h1 := length_le_renderMembersL (kv :: rest)
      simp only [List.length_append, List.length_cons] at h1 ⊢
      omega
    rw [renderJsonL, jsonLoadsCore, ht]
    rw [ht] at hpm
    simp only [List.cons_append] at hpm ⊢
    simp only [skipWs_lbrace, skipWs_quote, if_pos rfl,
      if_neg quote_ne_rbrace, hpm, skipWs_nil]
    simp

/-! ### Extraction lemmas -/

theorem trim_renderJsonL (fields : List (String × JValue)) :
    trimCore (renderJsonL fields) = renderJsonL fields := by
  rw [show renderJsonL fields = lbraceC :: (renderMembersL fields ++ [rbraceC])
    by simp [renderJsonL]]
  exact trimCore_eq_self _ _ _ (by decide) (by decide)

theorem trim_nl_wrap (fields : List (String × JValue)) :
    trimCore (nlC :: (renderJsonL fields ++ [nlC])) = renderJsonL fields := by
  have h1 : skipWs (nlC :: (renderJsonL fields ++ [nlC]))
      = lbraceC :: (renderMembersL fields ++ [rbraceC, nlC]) := by
    rw [skipWs_nl, show renderJsonL fields ++ [nlC]
      = lbraceC :: (renderMembersL fields ++ [rbraceC, nlC])
      by simp [renderJsonL], skipWs_lbrace]
  show (skipWs ((skipWs (nlC :: (renderJsonL fields ++ [nlC]))).reverse)).reverse
    = renderJsonL fields
  rw [h1, show (lbraceC :: (renderMembersL fields ++ [rbraceC, nlC])).reverse
    = nlC :: (rbraceC :: ((renderMembersL fields).reverse ++ [lbraceC]))
    by simp, skipWs_nl, skipWs_rbrace]
  simp [renderJsonL]

theorem no_btick_innerTagged {fields : List (String × JValue)}
    (h : goodFieldsB fields = true) :
    ∀ c ∈ jsonTagL ++ nlC :: renderJsonL fields ++ [nlC], c ≠ btickC := by
  intro c hc
  have hjson : ∀ x ∈ jsonTagL, x ≠ btickC := by decide
  rcases List.mem_append.mp hc with hc1 | hc1
  · rcases List.mem_append.mp hc1 with hc2 | hc2
    · exact hjson c hc2
    · rcases List.mem_cons.mp hc2 with rfl | hc3
      · decide
      · exact no_btick_renderJsonL h c hc3
  · rcases List.mem_singleton.mp hc1 with rfl; decide

theorem no_btick_innerPlain {fields : List (String × JValue)}
    (h : goodFieldsB fields = true) :
    ∀ c ∈ nlC :: renderJsonL fields ++ [nlC], c ≠ btickC := by
  intro c hc
  rcases List.mem_append.mp hc with hc1 | hc1
  · rcases List.mem_cons.mp hc1 with rfl | hc2
    · decide
    · exact no_btick_renderJsonL h c hc2
  · rcases List.mem_singleton.mp hc1 with rfl; decide

theorem splitFence_fencedTagged (fields : List (String × JValue))
    (h : goodFieldsB fields = true) :
    splitFence (fencedTagged fields)
      = [[], jsonTagL ++ nlC :: renderJsonL fields ++ [nlC], []] := by
  rw [show fencedTagged fields
    = fenceL ++ ((jsonTagL ++ nlC :: renderJsonL fields ++ [nlC]) ++ fenceL ++ [])
    by simp [fencedTagged]]
  rw [splitFence_fence, splitFence_mid _ _ (no_btick_innerTagged h),
    splitFence_nil]

theorem splitFence_fencedPlain (fields : List (String × JValue))
    (h : goodFieldsB fields = true) :
    splitFence (fencedPlain fields)
      = [[], nlC :: renderJsonL fields ++ [nlC], []] := by
  rw [show fencedPlain fields
    = fenceL ++ ((nlC :: renderJsonL fields ++ [nlC]) ++ fenceL ++ [])
    by simp [fencedPlain]]
  rw [splitFence_fence, splitFence_mid _ _ (no_btick_innerPlain h),
    splitFence_nil]

theorem trim_fencedTagged (fields : List (String × JValue)) :
    trimCore (fencedTagged fields) = fencedTagged fields := by
  rw [show fencedTagged fields
    = btickC :: ((btickC :: btickC :: jsonTagL ++ nlC :: renderJsonL fields
        ++ [nlC, btickC, btickC]) ++ [btickC])
    by simp [fencedTagged, fenceL]]
  exact trimCore_eq_self _ _ _ (by decide) (by decide)

theorem trim_fencedPlain (fields : List (String × JValue)) :
    trimCore (fencedPlain fields) = fencedPlain fields := by
  rw [show fencedPlain fields
    = btickC :: ((btickC :: btickC :: nlC :: renderJsonL fields
        ++ [nlC, btickC, btickC]) ++ [btickC])
    by simp [fencedPlain, fenceL]]
  exact trimCore_eq_self _ _ _ (by decide) (by decide)

theorem extract_unfenced (fields : List (String × JValue))
    (h : goodFieldsB fields = true) :
    extractCore (renderJsonL fields) = renderJsonL fields := by
  simp only [extractCore, trim_renderJsonL fields,
    splitFence_of_no_btick _ (no_btick_renderJsonL h)]
  simp

theorem extract_fencedTagged (fields : List (String × JValue))
    (h : goodFieldsB fields = true) :
    extractCore (fencedTagged fields) = renderJsonL fields := by
  simp only [extractCore, trim_fencedTagged fields,
    splitFence_fencedTagged fields h]
  rw [show (([] : List Char) :: (jsonTagL ++ nlC :: renderJsonL fields ++ [nlC])
      :: [[]]).getD 1 [] = jsonTagL ++ nlC :: renderJsonL fields ++ [nlC]
    from rfl]
  rw [show jsonTagL ++ nlC :: renderJsonL fields ++ [nlC]
    = 'j' :: 's' :: 'o' :: 'n' :: (nlC :: (renderJsonL fields ++ [nlC]))
    by simp [jsonTagL]]
  simp only [List.take, List.drop, jsonTagL]
  simp [trim_nl_wrap fields]

theorem take4_plain_ne (fields : List (String × JValue)) :
    (nlC :: (renderJsonL fields ++ [nlC])).take 4 ≠ jsonTagL := by
  intro hcontra
  rw [jsonTagL] at hcontra
  rw [show (nlC :: (renderJsonL fields ++ [nlC])).take 4
    = nlC :: ((renderJsonL fields ++ [nlC]).take 3) from rfl] at hcontra
  exact absurd (List.cons.inj hcontra).1 (by decide)

theorem extract_fencedPlain (fields : List (String × JValue))
    (h : goodFieldsB fields = true) :
    extractCore (fencedPlain fields) = renderJsonL fields := by
  simp only [extractCore, trim_fencedPlain fields,
    splitFence_fencedPlain fields h]
  rw [show (([] : List Char) :: (nlC :: renderJsonL fields ++ [nlC])
      :: [[]]).getD 1 [] = nlC :: renderJsonL fields ++ [nlC] from rfl]
  rw [show nlC :: renderJsonL fields ++ [nlC]
    = nlC :: (renderJsonL fields ++ [nlC]) by simp]
  rw [if_neg (take4_plain_ne fields), trim_nl_wrap fields]
  simp

theorem translate_word_unfenced (fields : List (String × JValue))
    (h : goodFieldsB fields = true) :
    translate_word (String.mk (renderJsonL fields)) = some fields := by
  rw [translate_word, toList_mk, extract_unfenced fields h,
    jsonLoadsCore_roundtrip fields h]

theorem translate_word_fencedTagged (fields : List (String × JValue))
    (h : goodFieldsB fields = true) :
    translate_word (String.mk (fencedTagged fields)) = some fields := by
  rw [translate_word, toList_mk, extract_fencedTagged fields h,
    jsonLoadsCore_roundtrip fields h]

theorem translate_word_fencedPlain (fields : List (String × JValue))
    (h : goodFieldsB fields = true) :
    translate_word (String.mk (fencedPlain fields)) = some fields := by
  rw [translate_word, toList_mk, extract_fencedPlain fields h,
    jsonLoadsCore_roundtrip fields h]

/-! ### Sorting and membership lemmas -/

theorem mem_insertDescBy {α : Type} (key : α → Int) (x a : α) (l : List α) :
    a ∈ insertDescBy key x l ↔ a = x ∨ a ∈ l := by
  induction l with
  | nil => simp [insertDescBy]
  | cons y ys ih =>
    rw [insertDescBy]
    split
    · simp
    · simp only [List.mem_cons, ih]
      tauto

theorem mem_sortDescBy {α : Type} (key : α → Int) (a : α) (l : List α) :
    a ∈ sortDescBy key l ↔ a ∈ l := by
  induction l with
  | nil => simp [sortDescBy]
  | cons x xs ih =>
    rw [sortDescBy, mem_insertDescBy]
    simp [ih]

theorem mem_insertAscBy {α : Type} (key : α → Int) (x a : α) (l : List α) :
    a ∈ insertAscBy key x l ↔ a = x ∨ a ∈ l := by
  induction l with
  | nil => simp [insertAscBy]
  | cons y ys ih =>
    rw [insertAscBy]
    split
    · simp
    · simp only [List.mem_cons, ih]
      tauto

theorem mem_sortAscBy {α : Type} (key : α → Int) (a : α) (l : List α) :
    a ∈ sortAscBy key l ↔ a ∈ l := by
  induction l with
  | nil => simp [sortAscBy]
  | cons x xs ih =>
    rw [sortAscBy, mem_insertAscBy]
    simp [ih]

theorem sortDesc_pair (a b : Int) (h : b < a) :
    sortDescBy (fun d => d) [a, b] = [a, b] := by
  simp [sortDescBy, insertDescBy, le_of_lt h]

theorem sortDesc_triple (a b c : Int) (h1 : b < a) (h2 : c < b) :
    sortDescBy (fun d => d) [a, b, c] = [a, b, c] := by
  simp [sortDescBy, insertDescBy, le_of_lt h1, le_of_lt h2]

/-! ### Date and streak lemmas -/

theorem dateOf_day (d : Int) : dateOf (86400 * d) = d := by
  unfold dateOf
  exact Int.mul_fdiv_cancel_left d (by norm_num)

theorem streakLoop_nil (today : Int) (i : Nat) : streakLoop today i [] = 0 := rfl

theorem streakLoop_cons_hit (today : Int) (i : Nat) (d : Int) (rest : List Int)
    (h : d = today - (i : Int)) :
    streakLoop today i (d :: rest) = 1 + streakLoop today (i + 1) rest := by
  rw [streakLoop, if_pos h]

theorem streakLoop_cons_shift (today d : Int) (rest : List Int)
    (h1 : ¬ d = today - ((0 : Nat) : Int)) (h2 : d = today - 1) :
    streakLoop today 0 (d :: rest) = 1 + streakLoop (today - 1) 1 rest := by
  rw [streakLoop, if_neg h1, if_pos ⟨rfl, h2⟩]

theorem streakLoop_cons_break (today : Int) (i : Nat) (d : Int)
    (rest : List Int) (h1 : ¬ d = today - (i : Int))
    (h2 : ¬ (i = 0 ∧ d = today - 1)) :
    streakLoop today i (d :: rest) = 0 := by
  rw [streakLoop, if_neg h1, if_neg h2]

theorem streakWalk3 (D : Int) : streakLoop D 0 [D, D - 1, D - 2] = 3 := by
  rw [streakLoop_cons_hit _ _ _ _ (by omega),
    streakLoop_cons_hit _ _ _ _ (by omega),
    streakLoop_cons_hit _ _ _ _ (by omega), streakLoop_nil]

theorem streakWalk2 (D : Int) : streakLoop D 0 [D - 1, D - 2] = 2 := by
  rw [streakLoop_cons_shift _ _ _ (by omega) (by omega),
    streakLoop_cons_hit _ _ _ _ (by omega), streakLoop_nil]

theorem streakWalkGap (D : Int) : streakLoop D 0 [D, D - 2] = 1 := by
  rw [streakLoop_cons_hit _ _ _ _ (by omega),
    streakLoop_cons_break _ _ _ _ (by omega) (by simp)]


theorem stats_streak3 (u : Nat) (D : Int) :
    (get_stats u (86400 * D)
      [mkE u (86400 * D), mkE u (86400 * (D - 1)), mkE u (86400 * (D - 2))]).streak
      = 3 := by
  simp only [get_stats, distinctDaysDesc, mkE, List.filter, beq_self_eq_true,
    List.map_cons, List.map_nil, dateOf_day]
  rw [List.dedup_cons_of_not_mem (by simp only [List.mem_cons, List.not_mem_nil, or_false, List.mem_singleton]; omega),
    List.dedup_cons_of_not_mem (by simp only [List.mem_cons, List.not_mem_nil, or_false, List.mem_singleton]; omega),
    List.dedup_cons_of_not_mem (by simp), List.dedup_nil,
    sortDesc_triple _ _ _ (by omega) (by omega), streakWalk3]

theorem stats_streak2 (u : Nat) (D : Int) :
    (get_stats u (86400 * D)
      [mkE u (86400 * (D - 1)), mkE u (86400 * (D - 2))]).streak = 2 := by
  simp only [get_stats, distinctDaysDesc, mkE, List.filter, beq_self_eq_true,
    List.map_cons, List.map_nil, dateOf_day]
  rw [List.dedup_cons_of_not_mem (by simp only [List.mem_cons, List.not_mem_nil, or_false, List.mem_singleton]; omega),
    List.dedup_cons_of_not_mem (by simp), List.dedup_nil,
    sortDesc_pair _ _ (by omega), streakWalk2]

theorem stats_streakGap (u : Nat) (D : Int) :
    (get_stats u (86400 * D)
      [mkE u (86400 * D), mkE u (86400 * (D - 2))]).streak = 1 := by
  simp only [get_stats, distinctDaysDesc, mkE, List.filter, beq_self_eq_true,
    List.map_cons, List.map_nil, dateOf_day]
  rw [List.dedup_cons_of_not_mem (by simp only [List.mem_cons, List.not_mem_nil, or_false, List.mem_singleton]; omega),
    List.dedup_cons_of_not_mem (by simp), List.dedup_nil,
    sortDesc_pair _ _ (by omega), streakWalkGap]

theorem stats_streak0 (u : Nat) (now : Int) :
    (get_stats u now []).streak = 0 := rfl

/-! ### Ownership-isolation lemmas -/

theorem get_words_owner (uid : Nat) (store : List Entry) :
    ∀ e ∈ get_words uid store, e.user_id = uid := by
  intro e he
  rw [get_words, mem_sortDescBy] at he
  have h2 := (List.mem_filter.mp he).2
  simpa using h2

theorem filter_other_map_update (uid v wid : Nat) (d : String)
    (store : List Entry) (hne : v ≠ uid) :
    (store.map (fun e => if e.id = wid ∧ e.user_id = uid then
        { e with difficulty := some d } else e)).filter
      (fun e => e.user_id == v)
      = store.filter (fun e => e.user_id == v) := by
  induction store with
  | nil => rfl
  | cons a l ih =>
    rw [List.map_cons, List.filter_cons, List.filter_cons]
    by_cases hmatch : a.id = wid ∧ a.user_id = uid
    · have hfalse : (a.user_id == v) = false := by
        simp only [beq_eq_false_iff_ne, ne_eq, hmatch.2]
        exact fun hcontra => hne hcontra.symm
      rw [if_pos hmatch]
      have hfalse2 : (({ a with difficulty := some d } : Entry).user_id == v)
          = false := hfalse
      rw [if_neg (by simp [hfalse2]), if_neg (by simp [hfalse]), ih]
    · rw [if_neg hmatch]
      by_cases hv : (a.user_id == v) = true
      · rw [if_pos hv, if_pos hv, ih]
      · rw [if_neg hv, if_neg hv, ih]

theorem filter_other_delete (uid v wid : Nat) (store : List Entry)
    (hne : v ≠ uid) :
    (store.filter (fun e => !(e.id == wid && e.user_id == uid))).filter
      (fun e => e.user_id == v)
      = store.filter (fun e => e.user_id == v) := by
  induction store with
  | nil => rfl
  | cons a l ih =>
    by_cases hv : a.user_id = v
    · have h1 : (a.user_id == uid) = false := by
        simp only [beq_eq_false_iff_ne, ne_eq, hv]
        exact hne
      have h2 : (!(a.id == wid && a.user_id == uid)) = true := by
        simp [h1]
      rw [List.filter_cons, if_pos h2, List.filter_cons, List.filter_cons,
        if_pos (by simp [hv]), if_pos (by simp [hv]), ih]
    · by_cases hdel : (!(a.id == wid && a.user_id == uid)) = true
      · rw [List.filter_cons, if_pos hdel, List.filter_cons, List.filter_cons,
          if_neg (by simp [hv]), if_neg (by simp [hv]), ih]
      · rw [List.filter_cons, if_neg hdel, List.filter_cons,
          if_neg (by simp [hv]), ih]

/-! ### No-op lemmas for unmatched updates and deletes -/

theorem set_difficulty_unmatched (uid wid : Nat) (body : Option String)
    (store : List Entry)
    (hvalid : body.getD "new" = "new" ∨ body.getD "new" = "hard" ∨
      body.getD "new" = "medium" ∨ body.getD "new" = "easy")
    (hno : ∀ e ∈ store, ¬ (e.id = wid ∧ e.user_id = uid)) :
    set_difficulty uid wid body store = Except.ok store := by
  rw [set_difficulty, if_pos hvalid]
  congr 1
  calc store.map (fun e => if e.id = wid ∧ e.user_id = uid then
        { e with difficulty := some (body.getD "new") } else e)
      = store.map id := List.map_congr_left (fun e he => if_neg (hno e he))
    _ = store := List.map_id store

theorem delete_word_unmatched (uid wid : Nat) (store : List Entry)
    (hno : ∀ e ∈ store, ¬ (e.id = wid ∧ e.user_id = uid)) :
    delete_word uid wid store = Except.ok store := by
  rw [delete_word]
  congr 1
  refine List.filter_eq_self.mpr (fun e he => ?_)
  by_cases h1 : e.id = wid
  · have h2 : e.user_id ≠ uid := fun h2c => (hno e he) ⟨h1, h2c⟩
    simp [beq_iff_eq, h2]
  · simp [beq_iff_eq, h1]

/-! ### Milestone, empty-report and daily-series lemmas -/

theorem milestones_targets (total : Nat) :
    (milestones_for total).map (fun m => m.target)
      = [1, 10, 25, 50, 100, 250, 500, 1000] := rfl

theorem milestones_reached_iff (total : Nat) :
    ∀ m ∈ milestones_for total, (m.reached = true ↔ m.target ≤ total) := by
  intro m hm
  simp only [milestones_for, List.mem_map] at hm
  obtain ⟨t, _, rfl⟩ := hm
  simp [decide_eq_true_iff]

theorem filter_owner_eq_nil (uid : Nat) (store : List Entry)
    (h : ∀ e ∈ store, e.user_id ≠ uid) :
    store.filter (fun e => e.user_id == uid) = [] := by
  refine List.filter_eq_nil_iff.mpr (fun e he => ?_)
  simpa using h e he

theorem dailyOf_empty_owner (uid : Nat) (now : Int) (store : List Entry)
    (h : ∀ e ∈ store, e.user_id ≠ uid) :
    dailyOf uid now store = [] := by
  have hfil : store.filter
      (fun e => e.user_id == uid && decide (now - 30 * 86400 < e.created_at))
      = [] := by
    refine List.filter_eq_nil_iff.mpr (fun e he => ?_)
    simp [h e he]
  rw [dailyOf, hfil]
  rfl

theorem dailyOf_mem_iff (uid : Nat) (now : Int) (store : List Entry)
    (d : Int) (c : Nat) :
    ((d, c) ∈ dailyOf uid now store) ↔
      (0 < c ∧ c = ((store.filter (fun e => e.user_id == uid &&
          decide (now - 30 * 86400 < e.created_at))).map
            (fun e => dateOf e.created_at)).count d) := by
  rw [dailyOf]
  rw [mem_sortAscBy]
  constructor
  · intro hmem
    obtain ⟨d2, hd2, heq⟩ := List.mem_map.mp hmem
    obtain ⟨rfl, rfl⟩ : d2 = d ∧ _ := by
      have h1 := (Prod.mk.injEq _ _ _ _).mp heq
      exact ⟨h1.1, h1.1 ▸ h1.2⟩
    refine ⟨?_, rfl⟩
    have hd3 := List.mem_dedup.mp hd2
    exact List.count_pos_iff.mpr hd3
  · rintro ⟨hpos, rfl⟩
    refine List.mem_map.mpr ⟨d, ?_, rfl⟩
    exact List.mem_dedup.mpr (List.count_pos_iff.mp hpos)

/-! ### Claim theorems -/

/-- C1: the streak walks the distinct entry-creation days sorted most
recent first, expecting `asOf - i` at index `i`, with a single anchor-shift
exception at index 0 when the most recent day is `asOf - 1`; the first
break ends the streak, no days gives 0; and entries on exactly
`{asOf, asOf-1, asOf-2}` give streak 3, `{asOf-1, asOf-2}` give streak 2,
`{asOf, asOf-2}` give streak 1. -/
theorem c1_streak_walk :
    (∀ (u : Nat) (D : Int),
      (get_stats u (86400 * D) [mkE u (86400 * D), mkE u (86400 * (D - 1)),
        mkE u (86400 * (D - 2))]).streak = 3 ∧
      (get_stats u (86400 * D) [mkE u (86400 * (D - 1)),
        mkE u (86400 * (D - 2))]).streak = 2 ∧
      (get_stats u (86400 * D) [mkE u (86400 * D),
        mkE u (86400 * (D - 2))]).streak = 1 ∧
      (get_stats u (86400 * D) []).streak = 0) ∧
    (∀ (today : Int) (i : Nat) (d : Int) (rest : List Int),
      d = today - (i : Int) →
      streakLoop today i (d :: rest) = 1 + streakLoop today (i + 1) rest) ∧
    (∀ (today d : Int) (rest : List Int), d ≠ today → d = today - 1 →
      streakLoop today 0 (d :: rest) = 1 + streakLoop (today - 1) 1 rest) ∧
    (∀ (today : Int) (i : Nat) (d : Int) (rest : List Int),
      ¬ d = today - (i : Int) → ¬ (i = 0 ∧ d = today - 1) →
      streakLoop today i (d :: rest) = 0) := by
  refine ⟨fun u D => ⟨stats_streak3 u D, stats_streak2 u D,
    stats_streakGap u D, stats_streak0 u _⟩,
    fun today i d rest h => streakLoop_cons_hit today i d rest h,
    fun today d rest h1 h2 =>
      streakLoop_cons_shift today d rest (by omega) h2,
    fun today i d rest h1 h2 => streakLoop_cons_break today i d rest h1 h2⟩

/-- Witness for C1 at owner 7, day 100. -/
theorem c1_streak_walk_witness :
    (get_stats 7 (86400 * 100) [mkE 7 (86400 * 100), mkE 7 (86400 * (100 - 1)),
      mkE 7 (86400 * (100 - 2))]).streak = 3 ∧
    streakLoop 100 0 (100 :: []) = 1 + streakLoop 100 (0 + 1) [] ∧
    streakLoop 100 0 (99 :: []) = 1 + streakLoop (100 - 1) 1 [] ∧
    streakLoop 100 1 (97 :: []) = 0 :=
  ⟨(c1_streak_walk.1 7 100).1,
   c1_streak_walk.2.1 100 0 100 [] (by decide),
   c1_streak_walk.2.2.1 100 99 [] (by decide) (by decide),
   c1_streak_walk.2.2.2 100 1 97 [] (by decide) (by decide)⟩

/-- C6: for text containing a fence delimiter the validator takes the first
fenced segment, strips a leading `json` tag, trims, and parses; for every
well-formed fenced (tagged or untagged) or unfenced JSON payload it returns
exactly the fields supplied, fences stripped. -/
theorem c6_fence_extraction (fields : List (String × JValue))
    (h : goodFieldsB fields = true) :
    extractCore (fencedTagged fields) = renderJsonL fields ∧
    extractCore (fencedPlain fields) = renderJsonL fields ∧
    translate_word (String.mk (fencedTagged fields)) = some fields ∧
    translate_word (String.mk (fencedPlain fields)) = some fields ∧
    translate_word (String.mk (renderJsonL fields)) = some fields :=
  ⟨extract_fencedTagged fields h, extract_fencedPlain fields h,
   translate_word_fencedTagged fields h, translate_word_fencedPlain fields h,
   translate_word_unfenced fields h⟩

/-- Witness for C6 on a two-field payload. -/
theorem c6_fence_extraction_witness :
    goodFieldsB [("english", JValue.str "flower"),
      ("german", JValue.str "Blume")] = true ∧
    translate_word (String.mk (fencedTagged [("english", JValue.str "flower"),
      ("german", JValue.str "Blume")]))
      = some [("english", JValue.str "flower"), ("german", JValue.str "Blume")] :=
  ⟨by decide,
   (c6_fence_extraction [("english", JValue.str "flower"),
      ("german", JValue.str "Blume")] (by decide)).2.2.1⟩

set_option maxRecDepth 10000 in
/-- C2 (counterexample): the noun payload additionally carrying
`verb_forms` "ging, gegangen" validates with `verb_forms` preserved, not
nulled — the claimed noun/verb coercion does not happen. -/
theorem c2_coercion_counterexample :
    translate_word (String.mk (renderJsonL (nounVerbFields "ging, gegangen")))
      = some (nounVerbFields "ging, gegangen") ∧
    jget (nounVerbFields "ging, gegangen") "verb_forms"
      = some (JValue.str "ging, gegangen") ∧
    jget (nounVerbFields "ging, gegangen") "verb_forms"
      ≠ some JValue.null := by
  refine ⟨by decide, by decide, by decide⟩

/-- C2 (amended): validation applies no noun/verb field-gating at all:
a noun payload carrying any `verb_forms` string is returned with that
string intact rather than coerced to null. -/
theorem c2_no_coercion (vf : String) (h : goodStrB vf = true) :
    translate_word (String.mk (renderJsonL (nounVerbFields vf)))
      = some (nounVerbFields vf) ∧
    jget (nounVerbFields vf) "verb_forms" = some (JValue.str vf) := by
  constructor
  · apply translate_word_unfenced
    simp only [goodFieldsB, nounVerbFields, List.all_cons, List.all_nil,
      Bool.and_eq_true, goodValB, h]
    decide
  · rfl

/-- Witness for C2 (amended) at the spec's own example value. -/
theorem c2_no_coercion_witness :
    goodStrB "ging, gegangen" = true ∧
    jget (nounVerbFields "ging, gegangen") "verb_forms"
      = some (JValue.str "ging, gegangen") :=
  ⟨by decide, (c2_no_coercion "ging, gegangen" (by decide)).2⟩

set_option maxRecDepth 10000 in
/-- C3 (counterexample): a structurally valid payload lacking `english`
(and `example_sentence`) validates successfully as an incomplete record — no
`InvalidField` failure exists in the validator. -/
theorem c3_invalidfield_counterexample :
    translate_word (String.mk (renderJsonL [("german", JValue.str "Blume")]))
      = some [("german", JValue.str "Blume")] ∧
    jget [("german", JValue.str "Blume")] "english" = none := by
  exact ⟨by decide, by decide⟩

/-- C3 (amended): unparsable text fails (reported as "Translation failed",
nothing persisted), but the validator performs no field-level checks: a
record whose `english` is absent or null is returned as parsed and only
fails later, at the persistence step (KeyError / NOT NULL, nothing
persisted), while an out-of-enum `word_type` is accepted and persisted. -/
theorem c3_malformed_reported_no_field_checks :
    (∀ (uid : Nat) (text : String) (now : Int) (nid : Nat)
        (store : List Entry), translate_word text = none →
      search uid text now nid store = Except.error "Translation failed") ∧
    (∀ (uid : Nat) (r : List (String × JValue)) (now : Int) (nid : Nat)
        (store : List Entry),
      (∀ s, jget r "english" ≠ some (JValue.str s)) →
      searchPersist uid r now nid store = Except.error "KeyError") ∧
    (translate_word (String.mk (renderJsonL bananaFields)) = some bananaFields ∧
      ∃ e, searchPersist 1 bananaFields 0 1 [] = Except.ok [e] ∧
        e.word_type = some "banana") := by
  refine ⟨?_, ?_, by decide, ?_⟩
  · intro uid text now nid store h
    simp [search, h]
  · intro uid r now nid store hno
    rcases hjE : jget r "english" with _ | v
    · simp [searchPersist, hjE]
    · cases v with
      | str s => exact absurd hjE (hno s)
      | null => simp [searchPersist, hjE]
  · exact ⟨_, rfl, rfl⟩

/-- Witness for C3 (amended): "x" is unparsable and the search reports it;
an empty parsed record fails persistence. -/
theorem c3_malformed_witness :
    search 0 "x" 0 0 [] = Except.error "Translation failed" ∧
    searchPersist 0 [] 0 0 [] = Except.error "KeyError" :=
  ⟨c3_malformed_reported_no_field_checks.1 0 "x" 0 0 [] (by decide),
   c3_malformed_reported_no_field_checks.2.1 0 [] 0 0 []
     (fun s => by simp [jget])⟩

/-- C4 (counterexample): with a store holding only another owner's row, a
difficulty update and a delete for an unmatched id both answer ok
(success), not NotFound; the store is unchanged but no error is
reported. -/
theorem c4_notfound_counterexample :
    set_difficulty 1 5 (some "easy") [mkE 2 0] = Except.ok [mkE 2 0] ∧
    delete_word 1 5 [mkE 2 0] = Except.ok [mkE 2 0] ∧
    (mkE 2 0).user_id ≠ 1 ∧ (mkE 2 0).id ≠ 5 := by
  exact ⟨rfl, rfl, by decide, by decide⟩

/-- C4 (amended): when no record with the id belongs to the owner, both
operations are silent no-ops: the store is unchanged and there is no
crash, but the handlers report success (ok), not NotFound. -/
theorem c4_unmatched_noop (uid wid : Nat) (body : Option String)
    (store : List Entry)
    (hvalid : body.getD "new" = "new" ∨ body.getD "new" = "hard" ∨
      body.getD "new" = "medium" ∨ body.getD "new" = "easy")
    (hno : ∀ e ∈ store, ¬ (e.id = wid ∧ e.user_id = uid)) :
    set_difficulty uid wid body store = Except.ok store ∧
    delete_word uid wid store = Except.ok store :=
  ⟨set_difficulty_unmatched uid wid body store hvalid hno,
   delete_word_unmatched uid wid store hno⟩

/-- Witness for C4 (amended) at owner 1, id 5, a foreign one-row store. -/
theorem c4_unmatched_noop_witness :
    set_difficulty 1 5 (some "hard") [mkE 2 0] = Except.ok [mkE 2 0] ∧
    delete_word 1 5 [mkE 2 0] = Except.ok [mkE 2 0] :=
  c4_unmatched_noop 1 5 (some "hard") [mkE 2 0] (by decide) (by decide)

/-- C5: owner-scoped operations never see or touch another owner's rows:
every listed record belongs to the caller, and the B-owned rows surviving
an A-scoped difficulty update or delete are exactly the B-owned rows of
the original store. -/
theorem c5_owner_isolation (A B wid : Nat) (body : Option String)
    (store store2 : List Entry) (hne : B ≠ A) :
    (∀ e ∈ get_words A store, e.user_id ≠ B) ∧
    (set_difficulty A wid body store = Except.ok store2 →
      store2.filter (fun e => e.user_id == B)
        = store.filter (fun e => e.user_id == B)) ∧
    (delete_word A wid store = Except.ok store2 →
      store2.filter (fun e => e.user_id == B)
        = store.filter (fun e => e.user_id == B)) := by
  refine ⟨?_, ?_, ?_⟩
  · intro e he hB
    exact hne (hB.symm.trans (get_words_owner A store e he))
  · intro hok
    rw [set_difficulty] at hok
    split at hok
    · injection hok with h2
      rw [← h2]
      exact filter_other_map_update A B wid _ store hne
    · exact absurd hok (by simp)
  · intro hok
    rw [delete_word] at hok
    injection hok with h2
    rw [← h2]
    exact filter_other_delete A B wid store hne

/-- Witness for C5 with owners 1 and 2. -/
theorem c5_owner_isolation_witness :
    (mkE 1 3).user_id ≠ 2 ∧
    ([mkE 2 0].filter (fun e => e.user_id == 2)
      = [mkE 2 0].filter (fun e => e.user_id == 2)) :=
  ⟨(c5_owner_isolation 1 2 0 none [mkE 1 3] [mkE 1 3] (by decide)).1
      (mkE 1 3) (by decide),
   (c5_owner_isolation 1 2 5 (some "easy") [mkE 2 0] [mkE 2 0]
      (by decide)).2.1 rfl⟩

/-- C7: an owner with zero entries gets total 0, an empty by-type mapping,
a by-difficulty mapping reading zero for each of new/easy/medium/hard, an
empty daily series, streak 0, and no milestone reached. -/
theorem c7_empty_stats (uid : Nat) (now : Int) (store : List Entry)
    (h : ∀ e ∈ store, e.user_id ≠ uid) :
    (get_stats uid now store).total = 0 ∧
    (get_stats uid now store).by_type = [] ∧
    lookupCount (get_stats uid now store).by_difficulty "new" = 0 ∧
    lookupCount (get_stats uid now store).by_difficulty "easy" = 0 ∧
    lookupCount (get_stats uid now store).by_difficulty "medium" = 0 ∧
    lookupCount (get_stats uid now store).by_difficulty "hard" = 0 ∧
    (get_stats uid now store).daily = [] ∧
    (get_stats uid now store).streak = 0 ∧
    ∀ m ∈ (get_stats uid now store).milestones, m.reached = false := by
  have hfil := filter_owner_eq_nil uid store h
  have hdaily := dailyOf_empty_owner uid now store h
  simp only [get_stats, hfil, hdaily]
  refine ⟨?_, ?_, ?_, ?_, ?_, ?_, ?_, ?_, ?_⟩ <;> first | rfl | trivial

/-- Witness for C7 on a store holding only another owner's row. -/
theorem c7_empty_stats_witness :
    (get_stats 1 0 [mkE 2 0]).total = 0 ∧
    (get_stats 1 0 [mkE 2 0]).streak = 0 ∧
    ({ target := 1, label := "First Word", icon := "seed",
        reached := false } : Milestone).reached = false :=
  ⟨(c7_empty_stats 1 0 [mkE 2 0] (by decide)).1,
   (c7_empty_stats 1 0 [mkE 2 0] (by decide)).2.2.2.2.2.2.2.1,
   (c7_empty_stats 1 0 [mkE 2 0] (by decide)).2.2.2.2.2.2.2.2
     { target := 1, label := "First Word", icon := "seed", reached := false }
     (by decide)⟩

/-- C8 (counterexample): with the clock at midnight of day 100, a single
entry one second inside the 30-day timestamp cutoff lands on calendar day
70, which the daily series reports although it lies outside
`[asOf - 29, asOf] = [71, 100]`. -/
theorem c8_window_counterexample :
    (get_stats 1 8640000 [mkE 1 6048001]).daily = [(70, 1)] ∧
    dateOf 8640000 = 100 ∧ (70 : Int) < 100 - 29 := by
  exact ⟨rfl, by decide, by decide⟩

/-- C8 (amended): the daily series contains exactly the pairs `(d, c)`
where `c` is positive and counts the owner's entries with
`created_at > asOf - 30 days` (a timestamp cutoff, not a calendar-day
window) created on day `d`; zero-count days are omitted, and day
`asOf - 30` can appear. -/
theorem c8_daily_series (uid : Nat) (now : Int) (store : List Entry)
    (d : Int) (c : Nat) :
    ((d, c) ∈ (get_stats uid now store).daily) ↔
      (0 < c ∧ c = ((store.filter (fun e => e.user_id == uid &&
          decide (now - 30 * 86400 < e.created_at))).map
            (fun e => dateOf e.created_at)).count d) :=
  dailyOf_mem_iff uid now store d c

/-- C9: the milestones are the fixed targets 1, 10, 25, 50, 100, 250, 500,
1000, and `reached` holds exactly when the target is at most the total. -/
theorem c9_milestones (uid : Nat) (now : Int) (store : List Entry) :
    ((get_stats uid now store).milestones.map (fun m => m.target)
      = [1, 10, 25, 50, 100, 250, 500, 1000]) ∧
    ∀ m ∈ (get_stats uid now store).milestones,
      (m.reached = true ↔ m.target ≤ (get_stats uid now store).total) :=
  ⟨milestones_targets _, milestones_reached_iff _⟩

/-- Witness for C9 on a one-entry store, where the first milestone is
reached. -/
theorem c9_milestones_witness :
    ({ target := 1, label := "First Word", icon := "seed",
        reached := true } : Milestone) ∈ (get_stats 1 0 [mkE 1 0]).milestones ∧
    (({ target := 1, label := "First Word", icon := "seed",
        reached := true } : Milestone).reached = true ↔
      1 ≤ (get_stats 1 0 [mkE 1 0]).total) :=
  ⟨by decide, (c9_milestones 1 0 [mkE 1 0]).2
    { target := 1, label := "First Word", icon := "seed", reached := true }
    (by decide)⟩

/-- C10: a difficulty-update whose body omits the difficulty key is not
rejected: the value defaults to "new", passes the enumeration check, and
every record of the owner with the given id has its difficulty overwritten
to "new", with a success result. -/
theorem c10_missing_difficulty_defaults (uid wid : Nat)
    (store : List Entry) :
    set_difficulty uid wid none store = Except.ok (store.map (fun e =>
      if e.id = wid ∧ e.user_id = uid then
        { e with difficulty := some "new" } else e)) ∧
    ∀ e ∈ store, e.id = wid → e.user_id = uid →
      { e with difficulty := some "new" } ∈ (store.map (fun e =>
        if e.id = wid ∧ e.user_id = uid then
          { e with difficulty := some "new" } else e)) := by
  constructor
  · rfl
  · intro e he h1 h2
    refine List.mem_map.mpr ⟨e, he, ?_⟩
    rw [if_pos ⟨h1, h2⟩]

/-- Witness for C10: the owner's own row id 0 is overwritten to "new". -/
theorem c10_missing_difficulty_witness :
    set_difficulty 1 0 none [mkE 1 5]
      = Except.ok [{ (mkE 1 5) with difficulty := some "new" }] ∧
    { (mkE 1 5) with difficulty := some "new" } ∈
      [{ (mkE 1 5) with difficulty := some "new" }] :=
  ⟨(c10_missing_difficulty_defaults 1 0 [mkE 1 5]).1,
   (c10_missing_difficulty_defaults 1 0 [mkE 1 5]).2 (mkE 1 5)
     (by decide) rfl rfl⟩
